import Mathlib

/-!
Shallow embedding of the merge-jsonc core (src/core.ts, src/fs-safety.ts) and
proofs about its decision engine, path guard and deep-merge behaviour.

Conventions of the embedding:
* JSON trees are `JValue`; machine numbers appearing in the claims are integers,
  so numbers are modelled as `Int`.
* The filesystem is a snapshot: an association list from absolute paths
  (canonical segment lists) to file data (content text and mtime in ms).
  `realp` is the symlink layer: it maps an existing path to its canonical
  real path, as `realpathSync` would.
* `-Infinity` mtimes (Node returns them for missing files) are `Option Int`
  with `none` standing for negative infinity.
* The third-party parsers (jsonc-parser, json5) are external libraries, not
  code of this repository; they are passed in as an `Env` oracle.  The
  third-party `deepmerge` library is modelled concretely (its documented
  default algorithm) because the claims are about its array behaviour.
* Fallible operations return `Except String`.
-/

/-- JSON value trees as produced by the parsers (`Record<string, unknown>`). -/
inductive JValue where
  | null : JValue
  | bool (b : Bool) : JValue
  | num (n : Int) : JValue
  | str (s : String) : JValue
  | arr (xs : List JValue) : JValue
  | obj (fields : List (String × JValue)) : JValue

/-- Key membership in an object field list (JS `propertyIsOnObject`). -/
def hasKey (k : String) (l : List (String × JValue)) : Bool :=
  l.any (fun kv => kv.1 == k)

mutual

/-- The `deepmerge` library with default options, as called by `mergeFiles`:
two plain objects merge key by key, two arrays are concatenated (the default
`arrayMerge` is `target.concat(source)`), any other combination is replaced
by the later value. -/
def deepmergeVal : JValue → JValue → JValue
  | .obj t, .obj s => .obj (mergeT t s ++ s.filter (fun kv => !(hasKey kv.1 t)))
  | .arr t, .arr s => .arr (t ++ s)
  | _, s => s
termination_by a b => sizeOf a + sizeOf b
decreasing_by (all_goals simp_wf); all_goals omega

/-- Target-key pass of `mergeObject`: every target key keeps its position,
its value merged with the matching source value when one exists. -/
def mergeT : List (String × JValue) → List (String × JValue) → List (String × JValue)
  | [], _ => []
  | (k, tv) :: rest, s => (k, mergeKey k tv s) :: mergeT rest s
termination_by t s => sizeOf t + sizeOf s
decreasing_by (all_goals simp_wf); all_goals omega

/-- Looks up key `k` in the source fields; on a hit the two values are
deep-merged, otherwise the target value is kept. -/
def mergeKey : String → JValue → List (String × JValue) → JValue
  | _, tv, [] => tv
  | k, tv, (k2, sv) :: rest => if k = k2 then deepmergeVal tv sv else mergeKey k tv rest
termination_by _ tv s => sizeOf tv + sizeOf s
decreasing_by (all_goals simp_wf); all_goals omega

end

/-- Joins strings with a separator (plain model of `Array.prototype.join`). -/
def joinWith (sep : String) : List String → String
  | [] => ""
  | [s] => s
  | s :: rest => s ++ sep ++ joinWith sep rest

/-- Escapes one character for a JSON string literal. -/
def escChar (c : Char) : String :=
  if c = '"' then "\\\""
  else if c = '\\' then "\\\\"
  else if c = '\n' then "\\n"
  else if c = '\t' then "\\t"
  else if c = '\r' then "\\r"
  else String.mk [c]

/-- A JSON string literal with quotes. -/
def quoteStr (s : String) : String :=
  "\"" ++ String.join (s.data.map escChar) ++ "\""

mutual

/-- `JSON.stringify(value, null, spaces)`: `gap` is the per-level indent unit
(empty means minified output), `ind` the accumulated indentation. -/
def jVal (gap ind : String) : JValue → String
  | .null => "null"
  | .bool b => if b then "true" else "false"
  | .num n => toString n
  | .str s => quoteStr s
  | .arr [] => "[]"
  | .arr (x :: xs) =>
    if gap = "" then "[" ++ joinWith "," (jList gap ind (x :: xs)) ++ "]"
    else "[\n" ++ (ind ++ gap) ++
      joinWith (",\n" ++ (ind ++ gap)) (jList gap (ind ++ gap) (x :: xs)) ++
      "\n" ++ ind ++ "]"
  | .obj [] => "\x7b\x7d"
  | .obj (f :: fs) =>
    if gap = "" then "\x7b" ++ joinWith "," (jFields gap ind (f :: fs)) ++ "\x7d"
    else "\x7b\n" ++ (ind ++ gap) ++
      joinWith (",\n" ++ (ind ++ gap)) (jFields gap (ind ++ gap) (f :: fs)) ++
      "\n" ++ ind ++ "\x7d"
termination_by v => sizeOf v
decreasing_by all_goals simp_wf

/-- Serialized array elements, in order. -/
def jList (gap ind : String) : List JValue → List String
  | [] => []
  | v :: rest => jVal gap ind v :: jList gap ind rest
termination_by l => sizeOf l
decreasing_by (all_goals simp_wf); all_goals omega

/-- Serialized object members, in order (`"key": value`, no space when minified). -/
def jFields (gap ind : String) : List (String × JValue) → List String
  | [] => []
  | (k, v) :: rest =>
    (quoteStr k ++ (if gap = "" then ":" else ": ") ++ jVal gap ind v) :: jFields gap ind rest
termination_by l => sizeOf l
decreasing_by (all_goals simp_wf); all_goals omega

end

/-- `JSON.stringify(combined, null, spaces)`; JS caps the indent unit at 10. -/
def stringify (v : JValue) (spaces : Nat) : String :=
  jVal (String.mk (List.replicate (min spaces 10) ' ')) "" v

/-- A path segment (one component between separators). -/
abbrev Seg := String

/-- A canonical absolute path: its segments from the filesystem root. -/
abbrev AbsPath := List Seg

/-- A caller-supplied path string, split at separators. -/
structure RawPath where
  absolute : Bool
  segs : List Seg
deriving DecidableEq, Repr

/-- Boolean list-prefix test (model of JS `String.prototype.startsWith` on
the underlying characters, and of list prefixes generally). -/
def isPre [DecidableEq α] : List α → List α → Bool
  | [], _ => true
  | _ :: _, [] => false
  | a :: as, b :: bs => a = b && isPre as bs

/-- JS `rel.startsWith(pre)`. -/
def strStartsWith (s pre : String) : Bool :=
  isPre pre.data s.data

/-- Node `path.resolve` normalization step over one segment. -/
def normStep (stack : List Seg) (s : Seg) : List Seg :=
  if s = "" || s = "." then stack
  else if s = ".." then stack.dropLast
  else stack ++ [s]

/-- Normalizes an absolute segment sequence: drops `.` and empty segments and
resolves `..` against the stack, clamping at the filesystem root. -/
def normalizeAbs (segs : List Seg) : AbsPath :=
  segs.foldl normStep []

/-- Node `resolve(ROOT, p)`: absolute paths stand alone, relative paths are
appended to the root, then the result is normalized. -/
def resolvePath (root : AbsPath) (p : RawPath) : AbsPath :=
  normalizeAbs ((if p.absolute then [] else root) ++ p.segs)

/-- Segments joined by the separator (Node `path.join` of ready segments). -/
def joinSegs : List Seg → String
  | [] => ""
  | [s] => s
  | s :: rest => s ++ "/" ++ joinSegs rest

/-- An absolute path rendered as a string. -/
def pathToString (p : AbsPath) : String :=
  "/" ++ joinSegs p

/-- A raw path rendered as the caller supplied it. -/
def rawToString (p : RawPath) : String :=
  (if p.absolute then "/" else "") ++ joinSegs p.segs

/-- Node `path.relative(from, to)` for two canonical absolute paths: strip the
common prefix, then one `..` per remaining `from` segment. -/
def relSegs : AbsPath → AbsPath → List Seg
  | [], ts => ts
  | f :: fs, [] => (f :: fs).map (fun _ => "..")
  | f :: fs, t :: ts =>
    if f = t then relSegs fs ts
    else (f :: fs).map (fun _ => "..") ++ (t :: ts)

/-- File data: UTF-8 content and mtime in milliseconds since the epoch. -/
structure FileData where
  content : String
  mtime : Int
deriving DecidableEq, Repr

/-- Filesystem snapshot: the realpath-resolved project root, the regular
files keyed by canonical absolute path, and the symlink layer `realp`
mapping a path to the canonical real path `realpathSync` yields for it. -/
structure FS where
  root : AbsPath
  files : List (AbsPath × FileData)
  realp : List (AbsPath × AbsPath)
deriving DecidableEq, Repr

/-- First-match association-list lookup. -/
def lookupA [DecidableEq α] (k : α) : List (α × β) → Option β
  | [] => none
  | (k2, v) :: rest => if k = k2 then some v else lookupA k rest

/-- Removes any entry for key `k`. -/
def removeA [DecidableEq α] (k : α) : List (α × β) → List (α × β)
  | [] => []
  | (k2, v) :: rest => if k2 = k then removeA k rest else (k2, v) :: removeA k rest

/-- Sets or replaces the entry for key `k`. -/
def setA [DecidableEq α] (k : α) (v : β) (l : List (α × β)) : List (α × β) :=
  (k, v) :: removeA k l

/-- `realpathSync`: a regular file is its own real path; otherwise follow the
symlink table; a path without an entry resolves to itself. -/
def realpathSync (fs : FS) (p : AbsPath) : AbsPath :=
  if (lookupA p fs.files).isSome then p else (lookupA p fs.realp).getD p

/-- `existsSync`, following symlinks: the canonical target must be a file. -/
def existsSync (fs : FS) (p : AbsPath) : Bool :=
  (lookupA (realpathSync fs p) fs.files).isSome

/-- `validateSegments` (fs-safety.ts): every segment that is not empty and not
`.`/`..` must match `^[A-Za-z0-9._-]+$`. -/
def segCharOk (c : Char) : Bool :=
  c.isAlphanum || c = '.' || c = '_' || c = '-'

/-- A segment the validator skips without testing. -/
def segSkip (s : Seg) : Bool :=
  s = "" || s = "." || s = ".."

/-- A segment matching the allowed character class (nonempty). -/
def segMatches (s : Seg) : Bool :=
  !(s.data.isEmpty) && s.data.all segCharOk

/-- `validateSegments(p)`: fails on the first offending segment. -/
def validateSegments (p : RawPath) : Except String Unit :=
  match p.segs.find? (fun s => !(segSkip s) && !(segMatches s)) with
  | some s => .error ("Illegal path segment " ++ s ++ " in " ++ rawToString p ++ ".")
  | none => .ok ()

/-- The resolved target the guard inspects: the resolved path, passed through
`realpathSync` when it exists (symlinks on an existing target are followed). -/
def finalResolved (fs : FS) (p : RawPath) : AbsPath :=
  let abs := resolvePath fs.root p
  if existsSync fs abs then realpathSync fs abs else abs

/-- `ensureInsideRoot` (fs-safety.ts): segment validation, then the resolved
real path must not escape the root — rejected when the root-relative path
starts with `..` (a textual check on the joined string, exactly as the code
performs it). -/
def ensureInsideRoot (fs : FS) (p : RawPath) : Except String AbsPath :=
  match validateSegments p with
  | .error e => .error e
  | .ok _ =>
    let finalPath := finalResolved fs p
    let rel := joinSegs (relSegs fs.root finalPath)
    if strStartsWith rel ".." ||
        (rel = "" && !(strStartsWith (pathToString finalPath) (pathToString fs.root))) then
      .error ("Path " ++ rawToString p ++ " is outside the project root.")
    else
      .ok finalPath

/-- JS `String.prototype.toLowerCase` (ASCII suffices for the extensions). -/
def lowerStr (s : String) : String :=
  String.mk (s.data.map Char.toLower)

/-- JS `String.prototype.split(".")` over the characters. -/
def splitDot : List Char → List (List Char)
  | [] => [[]]
  | x :: rest =>
    match splitDot rest with
    | [] => [[]]
    | g :: gs => if x = '.' then [] :: g :: gs else (x :: g) :: gs

/-- `filePath.toLowerCase().split(".").pop()`. -/
def lastDotPiece (s : String) : String :=
  String.mk ((splitDot (lowerStr s).data).getLastD [])

/-- The suffix of a basename from its last `.` on, or empty when the only dot
is the leading one (hidden files have no extension in Node). -/
def lastDotSuffix : List Char → Option (List Char)
  | [] => none
  | c :: rest =>
    match lastDotSuffix rest with
    | some suf => some suf
    | none => if c = '.' then some (c :: rest) else none

/-- Node `path.extname` on one basename string. -/
def extnameStr (s : String) : String :=
  match s.data with
  | [] => ""
  | _ :: rest =>
    match lastDotSuffix rest with
    | some suf => String.mk suf
    | none => ""

/-- `extname(pathStr)`: the extension of the last segment. -/
def extnamePath (p : RawPath) : String :=
  extnameStr (p.segs.getLastD "")

/-- `ensureJsonLike` (fs-safety.ts): the lower-cased extension must be
`.json` or `.jsonc`; everything else — including `.json5` — is rejected. -/
def ensureJsonLike (p : RawPath) : Except String Unit :=
  let ext := lowerStr (extnamePath p)
  if ¬(ext = ".json") ∧ ¬(ext = ".jsonc") then
    .error ("Only .json or .jsonc files are allowed: " ++ rawToString p)
  else
    .ok ()

/-- `safeInputPath`: extension check, root containment, then the file must
exist (optionally tolerated) and be a regular file — the snapshot stores only
regular files, so an existing canonical path is one. -/
def safeInputPath (fs : FS) (p : RawPath) (optional : Bool) : Except String (Option AbsPath) :=
  match ensureJsonLike p with
  | .error e => .error e
  | .ok _ =>
    match ensureInsideRoot fs p with
    | .error e => .error e
    | .ok abs =>
      if !(existsSync fs abs) then
        if optional then .ok none else .error ("Required file not found: " ++ rawToString p)
      else
        .ok (some abs)

/-- Node `dirname`: drop the last segment (`dirname("a.json")` is `.`,
modelled as the empty relative path, which resolves to the root). -/
def dirnameRaw (p : RawPath) : RawPath :=
  { absolute := p.absolute, segs := p.segs.dropLast }

/-- `safeOutputPath`: extension check, then both the parent directory and the
output path itself must resolve inside the root. -/
def safeOutputPath (fs : FS) (p : RawPath) : Except String AbsPath :=
  match ensureJsonLike p with
  | .error e => .error e
  | .ok _ =>
    match ensureInsideRoot fs (dirnameRaw p) with
    | .error e => .error e
    | .ok _ => ensureInsideRoot fs p

/-- The 100 MB read ceiling (`MAX_FILE_SIZE`). -/
def maxFileSize : Nat := 100 * 1024 * 1024

/-- `readText` (fs-safety.ts): stat, refuse oversized files, read as UTF-8. -/
def readText (fs : FS) (p : AbsPath) : Except String String :=
  match lookupA (realpathSync fs p) fs.files with
  | none => .error ("ENOENT: no such file " ++ pathToString p)
  | some d =>
    if d.content.length > maxFileSize then
      .error ("File " ++ pathToString p ++ " is too large.")
    else
      .ok d.content

/-- `getMtimeMs`: mtime in ms, or negative infinity (`none`) for a null
reference or a missing file. -/
def getMtimeMs (fs : FS) (absPath : Option AbsPath) : Option Int :=
  match absPath with
  | none => none
  | some p =>
    if existsSync fs p then (lookupA (realpathSync fs p) fs.files).map (·.mtime)
    else none

/-- `a ≤ b` over mtimes where `none` is negative infinity. -/
def leE : Option Int → Option Int → Bool
  | none, _ => true
  | some _, none => false
  | some a, some b => a ≤ b

/-- `Math.max(...)` over mtimes; the empty spread gives negative infinity. -/
def maxE (l : List (Option Int)) : Option Int :=
  l.foldl (fun acc x => if leE acc x then x else acc) none

/-- `writeFileSync`: sets the file content, stamping the current time. -/
def writeFileSync (fs : FS) (p : AbsPath) (text : String) (now : Int) : FS :=
  { fs with files := setA p ⟨text, now⟩ fs.files }

/-- `renameSync src dst`: moves the entry (data and mtime travel with it). -/
def renameSync (fs : FS) (src dst : AbsPath) : Except String FS :=
  match lookupA src fs.files with
  | none => .error ("ENOENT: rename source missing " ++ pathToString src)
  | some d => .ok { fs with files := setA dst d (removeA src fs.files) }

/-- Appends a suffix to the path string: `` `${outAbs}.bak` `` becomes a new
last segment. -/
def addSuffix (p : AbsPath) (suf : String) : AbsPath :=
  match p with
  | [] => [suf]
  | [last] => [last ++ suf]
  | x :: rest => x :: addSuffix rest suf

/-- `atomicWrite` (fs-safety.ts): when asked and the output exists, first copy
its current content verbatim to `<out>.bak`; then write the new text to a
`.tmp` sibling and rename it over the output.  Returns the backup path if one
was made. -/
def atomicWrite (fs : FS) (outAbs : AbsPath) (text : String) (createBackup : Bool)
    (now : Int) : Except String (Option AbsPath × FS) :=
  match (if createBackup && existsSync fs outAbs then
          match readText fs outAbs with
          | .error e => .error e
          | .ok backupContent =>
            .ok (some (addSuffix outAbs ".bak"),
                 writeFileSync fs (addSuffix outAbs ".bak") backupContent now)
        else .ok (none, fs) : Except String (Option AbsPath × FS)) with
  | .error e => .error e
  | .ok (backupPath, fs1) =>
    let tmp := addSuffix outAbs ".tmp"
    let fs2 := writeFileSync fs1 tmp text now
    match renameSync fs2 tmp outAbs with
    | .error e => .error e
    | .ok fs3 => .ok (backupPath, fs3)

/-- The options record `mergeJsonc` receives (core.ts `MergeOptions`); the
code has no array-merge field, see the C1 theorem. -/
structure MergeOptions where
  out : RawPath
  inputs : List RawPath
  skipMissing : Bool := false
  pretty : Bool := true
  dryRun : Bool := false
  backup : Bool := false
  indent : Option Nat := none
deriving Repr

/-- The tag of a merge outcome. -/
inductive Reason where
  | no_inputs | up_to_date | no_content_change | dry_run
  | wrote | wrote_with_backup
deriving DecidableEq, Repr

/-- The runtime shape of a `MergeResult`: one record whose optional fields are
`none` when the corresponding TS object omits them. -/
structure MergeResult where
  wrote : Bool
  reason : Reason
  preview : Option String := none
  out : Option AbsPath := none
  backup : Option AbsPath := none
deriving DecidableEq, Repr

/-- The external parsers, supplied as oracles: `jsonc-parser` for `.json`,
`.jsonc` and unrecognized extensions, `json5` for `.json5`. -/
structure Env where
  parseJsonc : String → Except String JValue
  parseJson5 : String → Except String JValue

/-- `resolveInputPaths` (core.ts): validate each input, drop the `null`s that
tolerated missing files produce. -/
def resolveInputPaths (fs : FS) (inputs : List RawPath) (skipMissing : Bool) :
    Except String (List AbsPath) :=
  match inputs.mapM (fun p => safeInputPath fs p skipMissing) with
  | .error e => .error e
  | .ok l => .ok (l.filterMap id)

/-- `checkIfUpToDate` (core.ts): false for a missing output or in dry-run;
otherwise the newest input mtime must be at most the output mtime. -/
def checkIfUpToDate (fs : FS) (outAbs : AbsPath) (inputAbs : List AbsPath)
    (dryRun : Bool) : Bool :=
  if !(existsSync fs outAbs) || dryRun then false
  else
    leE (maxE (inputAbs.map (fun p => getMtimeMs fs (some p))))
        (getMtimeMs fs (some outAbs))

/-- `parseJsonFile` (core.ts): dispatch on the last dot-separated piece of the
lower-cased path — `json5` selects the JSON5 parser, everything else the JSONC
parser; parse failures are wrapped with the path and format name. -/
def parseJsonFile (env : Env) (filePath : AbsPath) (content : String) :
    Except String JValue :=
  let ext := lastDotPiece (pathToString filePath)
  if ext = "json5" then
    match env.parseJson5 content with
    | .ok v => .ok v
    | .error msg =>
      .error ("Failed to parse JSON5 file " ++ pathToString filePath ++ ": " ++ msg)
  else
    match env.parseJsonc content with
    | .ok v => .ok v
    | .error msg =>
      .error ("Failed to parse JSON/JSONC file " ++ pathToString filePath ++ ": " ++ msg)

/-- The fold inside `mergeFiles`: read, parse, deep-merge each input in order. -/
def mergeFilesGo (env : Env) (fs : FS) (combined : JValue) :
    List AbsPath → Except String JValue
  | [] => .ok combined
  | abs :: rest =>
    match readText fs abs with
    | .error e => .error e
    | .ok content =>
      match parseJsonFile env abs content with
      | .error e => .error e
      | .ok parsed => mergeFilesGo env fs (deepmergeVal combined parsed) rest

/-- `mergeFiles` (core.ts): fold the parsed inputs into one structure starting
from the empty object, later files overriding earlier ones. -/
def mergeFiles (env : Env) (fs : FS) (inputAbs : List AbsPath) : Except String JValue :=
  mergeFilesGo env fs (JValue.obj []) inputAbs

/-- `calculateIndentation` (core.ts): an explicit indent wins; else 2 when
pretty, 0 when not. -/
def calculateIndentation (indent : Option Nat) (pretty : Bool) : Nat :=
  match indent with
  | some i => i
  | none => if pretty then 2 else 0

/-- `checkContentChanged` (core.ts): a missing output always counts as
changed; otherwise compare the stored text with the new text. -/
def checkContentChanged (fs : FS) (outAbs : AbsPath) (newText : String) :
    Except String Bool :=
  if !(existsSync fs outAbs) then .ok true
  else
    match readText fs outAbs with
    | .error e => .error e
    | .ok current => .ok (current != newText)

/-- `mergeJsonc` (core.ts), the decision engine: resolve inputs, bail on
none, resolve the output, merge and serialize, then in order — content
equality, timestamp up-to-date, dry-run preview, commit.  Returns the result
together with the filesystem after the invocation. -/
def mergeJsonc (env : Env) (fs : FS) (opts : MergeOptions) (now : Int) :
    Except String (MergeResult × FS) :=
  match resolveInputPaths fs opts.inputs opts.skipMissing with
  | .error e => .error e
  | .ok inputAbs =>
    if inputAbs.length = 0 then
      .ok ({ wrote := false, reason := .no_inputs }, fs)
    else
      match safeOutputPath fs opts.out with
      | .error e => .error e
      | .ok outAbs =>
        match mergeFiles env fs inputAbs with
        | .error e => .error e
        | .ok combined =>
          let spaces := calculateIndentation opts.indent opts.pretty
          let text := stringify combined spaces
          match checkContentChanged fs outAbs text with
          | .error e => .error e
          | .ok changed =>
            if !changed then
              .ok ({ wrote := false, reason := .no_content_change }, fs)
            else if checkIfUpToDate fs outAbs inputAbs opts.dryRun then
              .ok ({ wrote := false, reason := .up_to_date }, fs)
            else if opts.dryRun then
              .ok ({ wrote := false, reason := .dry_run, preview := some text }, fs)
            else
              match atomicWrite fs outAbs text opts.backup now with
              | .error e => .error e
              | .ok (backupPath, fs2) =>
                .ok ({ wrote := true,
                       reason := match backupPath with
                         | some _ => .wrote_with_backup
                         | none => .wrote,
                       out := some outAbs,
                       backup := backupPath }, fs2)

/-- True exactly when an `Except` is an error. -/
def exceptIsErr : Except ε α → Bool
  | .error _ => true
  | .ok _ => false

/-! Concrete fixtures used by individual claims. -/

/-- Parser oracle for the array-strategy scenario: the two input texts parse
to objects carrying `items: [1,2]` and `items: [3,4]`. -/
def envC1 : Env :=
  { parseJsonc := fun s =>
      if s = "\x7b\"items\": [1, 2]\x7d" then
        .ok (.obj [("items", .arr [.num 1, .num 2])])
      else if s = "\x7b\"items\": [3, 4]\x7d" then
        .ok (.obj [("items", .arr [.num 3, .num 4])])
      else .error "parse error",
    parseJson5 := fun _ => .error "parse error" }

/-- Two inputs whose `items` arrays collide. -/
def fsC1 : FS :=
  ⟨["proj"],
   [(["proj", "a.jsonc"], ⟨"\x7b\"items\": [1, 2]\x7d", 10⟩),
    (["proj", "b.jsonc"], ⟨"\x7b\"items\": [3, 4]\x7d", 20⟩)],
   []⟩

/-- An empty project at root `/proj`, no files and no symlinks. -/
def fsC7 : FS := ⟨["proj"], [], []⟩

/-- A project holding a symlink `/proj/link.json` whose real target
`/etc/secret.json` lies outside the root. -/
def fsL : FS :=
  ⟨["proj"], [(["etc", "secret.json"], ⟨"secret", 1⟩)],
   [(["proj", "link.json"], ["etc", "secret.json"])]⟩

/-- A parser oracle that accepts nothing (for scenarios that never parse). -/
def envNone : Env :=
  ⟨fun _ => .error "parse error", fun _ => .error "parse error"⟩

/-- Options listing only missing inputs, tolerated, with an output path that
could never validate (`.txt`, escaping the root) — never touched. -/
def optsW8 : MergeOptions :=
  { out := ⟨false, ["..", "evil.txt"]⟩,
    inputs := [⟨false, ["missing1.json"]⟩, ⟨false, ["missing2.json"]⟩],
    skipMissing := true }

/-- Parser oracle mapping the single scenario input to `a: 1`. -/
def envW2 : Env :=
  { parseJsonc := fun s =>
      if s = "\x7b\"a\": 1\x7d" then .ok (.obj [("a", .num 1)])
      else .error "parse error",
    parseJson5 := fun _ => .error "parse error" }

/-- One input newer than the output, whose serialized merge equals the
output content character for character. -/
def fsW2 : FS :=
  ⟨["r"],
   [(["r", "a.jsonc"], ⟨"\x7b\"a\": 1\x7d", 100⟩),
    (["r", "out.json"], ⟨"\x7b\n  \"a\": 1\n\x7d", 0⟩)],
   []⟩

/-- A dry-run invocation of that scenario. -/
def optsW2 : MergeOptions :=
  { out := ⟨false, ["out.json"]⟩, inputs := [⟨false, ["a.jsonc"]⟩], dryRun := true }

/-- Output with stale content whose mtime exactly equals the newest input
mtime (both 100). -/
def fsW3 : FS :=
  ⟨["r"],
   [(["r", "a.jsonc"], ⟨"\x7b\"a\": 1\x7d", 100⟩),
    (["r", "out.json"], ⟨"old", 100⟩)],
   []⟩

/-- A plain (non-dry-run) invocation of that scenario. -/
def optsW3 : MergeOptions :=
  { out := ⟨false, ["out.json"]⟩, inputs := [⟨false, ["a.jsonc"]⟩] }

/-- One input and no output file at all. -/
def fsW10 : FS :=
  ⟨["r"], [(["r", "a.jsonc"], ⟨"\x7b\"a\": 1\x7d", 100⟩)], []⟩

/-- A committing invocation with the backup flag raised. -/
def optsW10 : MergeOptions :=
  { out := ⟨false, ["out.json"]⟩, inputs := [⟨false, ["a.jsonc"]⟩], backup := true }

/-- The same invocation as a dry run. -/
def optsW10d : MergeOptions :=
  { out := ⟨false, ["out.json"]⟩, inputs := [⟨false, ["a.jsonc"]⟩],
    backup := true, dryRun := true }

/-- An existing stale output (older than the input, different content). -/
def fsW6 : FS :=
  ⟨["r"],
   [(["r", "a.jsonc"], ⟨"\x7b\"a\": 1\x7d", 100⟩),
    (["r", "out.json"], ⟨"old", 50⟩)],
   []⟩

/-- The result that a dry run over `fsW10` computes (its preview is the
serialized fold of the single input). -/
def resW9 : MergeResult :=
  { wrote := false, reason := .dry_run,
    preview := some (stringify
      (deepmergeVal (.obj []) (.obj [("a", JValue.num 1)])) 2) }

/-! Helper lemmas about the association-list filesystem and path strings. -/

theorem strData_append (a b : String) : (a ++ b).data = a.data ++ b.data := rfl

theorem strData_inj {a b : String} (h : a.data = b.data) : a = b := by
  cases a; cases b; exact congrArg String.mk h

theorem strAppend_cancel {l s t : String} (h : l ++ s = l ++ t) : s = t := by
  have hd := congrArg String.data h
  rw [strData_append, strData_append] at hd
  exact strData_inj (List.append_cancel_left hd)

theorem strAppend_ne_self {l s : String} (hs : s ≠ "") : l ++ s ≠ l := by
  intro h
  have hlen := congrArg String.length h
  rw [String.length_append] at hlen
  have : s.length = 0 := by omega
  exact hs (strData_inj (List.length_eq_zero.mp this))

theorem lookupA_setA_self [DecidableEq α] (k : α) (v : β) (l : List (α × β)) :
    lookupA k (setA k v l) = some v := by
  simp [lookupA, setA]

theorem lookupA_removeA_ne [DecidableEq α] {k k2 : α} (hne : k2 ≠ k)
    (l : List (α × β)) : lookupA k2 (removeA k l) = lookupA k2 l := by
  induction l with
  | nil => rfl
  | cons hd tl ih =>
    cases hd with
    | mk h1 h2 =>
      by_cases hk : h1 = k
      · have hk2 : ¬(k2 = h1) := fun h => hne (hk ▸ h)
        simp [removeA, lookupA, hk, hk2, hne, ih]
      · by_cases hk2 : k2 = h1
        · simp [removeA, lookupA, hk, hk2]
        · simp [removeA, lookupA, hk, hk2, ih]

theorem lookupA_setA_ne [DecidableEq α] {k k2 : α} (hne : k2 ≠ k) (v : β)
    (l : List (α × β)) : lookupA k2 (setA k v l) = lookupA k2 l := by
  simp [setA, lookupA, hne, lookupA_removeA_ne hne]

theorem addSuffix_ne_self (p : AbsPath) {s : String} (hs : s ≠ "") :
    addSuffix p s ≠ p := by
  induction p with
  | nil => simp [addSuffix]
  | cons x rest ih =>
    cases rest with
    | nil =>
      intro h
      simp only [addSuffix] at h
      injection h with h1 h2
      exact strAppend_ne_self hs h1
    | cons y rest2 =>
      intro h
      simp only [addSuffix] at h
      injection h with h1 h2
      exact ih h2

theorem addSuffix_inj (p : AbsPath) {s t : String}
    (h : addSuffix p s = addSuffix p t) : s = t := by
  induction p with
  | nil => simpa [addSuffix] using h
  | cons x rest ih =>
    cases rest with
    | nil =>
      simp only [addSuffix] at h
      injection h with h1 h2
      exact strAppend_cancel h1
    | cons y rest2 =>
      simp only [addSuffix] at h
      injection h with h1 h2
      exact ih h2

theorem addSuffix_bak_ne_tmp (p : AbsPath) :
    addSuffix p ".bak" ≠ addSuffix p ".tmp" := by
  intro h
  have := addSuffix_inj p h
  simp at this

theorem relSegs_append_self (a rest : AbsPath) : relSegs a (a ++ rest) = rest := by
  induction a with
  | nil => rfl
  | cons f fs ih => simpa [relSegs] using ih

theorem relSegs_not_pre {a b : AbsPath} (h : isPre a b = false) :
    ∃ r, relSegs a b = ".." :: r := by
  induction a generalizing b with
  | nil => simp [isPre] at h
  | cons f fs ih =>
    cases b with
    | nil => exact ⟨fs.map (fun _ => ".."), by simp [relSegs]⟩
    | cons t ts =>
      by_cases hft : f = t
      · subst hft
        have h2 : isPre fs ts = false := by simpa [isPre] using h
        obtain ⟨r, hr⟩ := ih h2
        exact ⟨r, by simpa [relSegs] using hr⟩
      · exact ⟨fs.map (fun _ => "..") ++ (t :: ts), by simp [relSegs, hft]⟩

theorem isPre_self_append [DecidableEq α] (a b : List α) : isPre a (a ++ b) = true := by
  induction a with
  | nil => rfl
  | cons x xs ih => simpa [isPre] using ih

theorem isPre_append_both [DecidableEq α] (a : List α) {x y : List α}
    (h : isPre x y = true) : isPre (a ++ x) (a ++ y) = true := by
  induction a with
  | nil => simpa using h
  | cons c cs ih => simpa [isPre] using ih

theorem joinSegs_startsWith_dotdot (r : List Seg) :
    strStartsWith (joinSegs (".." :: r)) ".." = true := by
  cases r with
  | nil => rfl
  | cons s rs =>
    show isPre (".." : String).data (".." ++ "/" ++ joinSegs (s :: rs)).data = true
    rw [strData_append, strData_append]
    exact isPre_self_append _ _

theorem joinSegs_pre (a r : List Seg) :
    isPre (joinSegs a).data (joinSegs (a ++ r)).data = true := by
  induction a with
  | nil => simp [joinSegs, isPre]
  | cons s tl ih =>
    cases tl with
    | nil =>
      cases r with
      | nil =>
        simpa using isPre_self_append (α := Char) (joinSegs [s]).data []
      | cons r0 rs =>
        show isPre (joinSegs [s]).data (joinSegs (s :: r0 :: rs)).data = true
        have hd : (joinSegs (s :: r0 :: rs)).data
            = (joinSegs [s]).data ++ ("/" ++ joinSegs (r0 :: rs)).data := by
          simp [joinSegs, strData_append, List.append_assoc]
        rw [hd]
        exact isPre_self_append _ _
    | cons a1 as =>
      show isPre (joinSegs (s :: a1 :: as)).data
          (joinSegs (s :: (a1 :: as ++ r))).data = true
      have hne : a1 :: as ++ r = a1 :: (as ++ r) := rfl
      simp only [joinSegs, strData_append, hne]
      exact isPre_append_both _ (ih)

theorem pathToString_startsWith (a r : AbsPath) :
    strStartsWith (pathToString (a ++ r)) (pathToString a) = true := by
  show isPre (pathToString a).data (pathToString (a ++ r)).data = true
  simp only [pathToString, strData_append]
  exact isPre_append_both _ (joinSegs_pre a r)

/-- C1: the claim says the engine applies a configured array strategy with
replace as the default, so that merging `items:[1,2]` then `items:[3,4]`
under the default options yields `items:[3,4]`.  The code does not: `mergeFiles`
calls `deepmerge(combined, parsed)` with no options, `MergeOptions` carries no
array-strategy field (the CLI silently drops the `--array-merge` flag it
documents), and the library default concatenates — the default merge of these
two inputs is `items:[1,2,3,4]`, never `items:[3,4]`. -/
theorem c1_array_merge_is_concat_not_replace :
    deepmergeVal (.obj [("items", .arr [.num 1, .num 2])])
        (.obj [("items", .arr [.num 3, .num 4])])
      = .obj [("items", JValue.arr [.num 1, .num 2, .num 3, .num 4])] ∧
    mergeFiles envC1 fsC1 [["proj", "a.jsonc"], ["proj", "b.jsonc"]]
      = .ok (.obj [("items", JValue.arr [.num 1, .num 2, .num 3, .num 4])]) := by
  have e1 : deepmergeVal (.obj [])
      (.obj [("items", JValue.arr [.num 1, .num 2])])
      = .obj [("items", JValue.arr [.num 1, .num 2])] := by
    simp [deepmergeVal, mergeT, hasKey]
  have e2 : deepmergeVal (.obj [("items", JValue.arr [.num 1, .num 2])])
      (.obj [("items", JValue.arr [.num 3, .num 4])])
      = .obj [("items", JValue.arr [.num 1, .num 2, .num 3, .num 4])] := by
    simp [deepmergeVal, mergeT, mergeKey, hasKey]
  refine ⟨e2, ?_⟩
  calc mergeFiles envC1 fsC1 [["proj", "a.jsonc"], ["proj", "b.jsonc"]]
      = mergeFilesGo envC1 fsC1
          (deepmergeVal (.obj []) (.obj [("items", JValue.arr [.num 1, .num 2])]))
          [["proj", "b.jsonc"]] := rfl
    _ = mergeFilesGo envC1 fsC1 (.obj [("items", JValue.arr [.num 1, .num 2])])
          [["proj", "b.jsonc"]] := by rw [e1]
    _ = .ok (deepmergeVal (.obj [("items", JValue.arr [.num 1, .num 2])])
          (.obj [("items", JValue.arr [.num 3, .num 4])])) := rfl
    _ = .ok (.obj [("items", JValue.arr [.num 1, .num 2, .num 3, .num 4])]) := by rw [e2]

/-- C4: the claim says the extension check fails outside the allow-list and
does not fail for `.json`, `.jsonc` or `.json5`.  The code disagrees on
`.json5`: `ensureJsonLike` allows only `.json` and `.jsonc` (case-insensitive)
and rejects `file.json5`, even though the repository test suite asserts
`.json5` must pass and `parseJsonFile` has a JSON5 branch. -/
theorem c4_json5_extension_rejected :
    ensureJsonLike ⟨false, ["file.json5"]⟩
      = .error "Only .json or .jsonc files are allowed: file.json5" ∧
    ensureJsonLike ⟨false, ["file.json"]⟩ = .ok () ∧
    ensureJsonLike ⟨false, ["file.jsonc"]⟩ = .ok () ∧
    ensureJsonLike ⟨false, ["file.JSON"]⟩ = .ok () ∧
    ensureJsonLike ⟨false, ["file.txt"]⟩
      = .error "Only .json or .jsonc files are allowed: file.txt" :=
  ⟨rfl, rfl, rfl, rfl, rfl⟩

/-- C7: counterexample to "every path with only safe-character segments that
resolves inside the root is accepted".  The relative path `..foo` has one
segment made only of safe characters (dots and letters), passes
`validateSegments`, and resolves to `/proj/..foo` inside the root — yet
`ensureInsideRoot` rejects it, because the textual check fires on any
root-relative path that merely begins with the two characters `..`. -/
theorem c7_safe_inside_path_rejected :
    validateSegments ⟨false, ["..foo"]⟩ = .ok () ∧
    resolvePath ["proj"] ⟨false, ["..foo"]⟩ = ["proj", "..foo"] ∧
    ensureInsideRoot fsC7 ⟨false, ["..foo"]⟩
      = .error "Path ..foo is outside the project root." :=
  ⟨rfl, rfl, rfl⟩

/-- C7 (amended): `ensureInsideRoot` fails for every path whose resolved real
target — after `..` resolution and, for an existing target, symlink
resolution — lies outside the project root; and it accepts every path with
only safe-character segments whose resolved real target stays inside the
root, returning that target, provided the root-relative remainder does not
textually begin with two dots (a basename such as `..foo` is spuriously
rejected, which is exactly what the counterexample shows). -/
theorem c7_path_guard_amended :
    (∀ (fs : FS) (p : RawPath),
      isPre fs.root (finalResolved fs p) = false →
      exceptIsErr (ensureInsideRoot fs p) = true) ∧
    (∀ (fs : FS) (p : RawPath) (rest : List Seg),
      validateSegments p = .ok () →
      finalResolved fs p = fs.root ++ rest →
      strStartsWith (joinSegs rest) ".." = false →
      ensureInsideRoot fs p = .ok (fs.root ++ rest)) := by
  constructor
  · intro fs p hout
    unfold ensureInsideRoot
    cases hv : validateSegments p with
    | error e => rfl
    | ok u =>
      obtain ⟨r, hr⟩ := relSegs_not_pre hout
      simp only [hr, joinSegs_startsWith_dotdot, Bool.true_or, if_pos, exceptIsErr]
  · intro fs p rest hv hfin hnp
    unfold ensureInsideRoot
    rw [hv]
    simp only [hfin, relSegs_append_self, hnp, Bool.false_or,
      pathToString_startsWith, Bool.not_true, Bool.and_false,
      Bool.false_eq_true, if_false]

/-- C7 witness: the amended guard theorem applied at concrete paths — a `..`
traversal and a symlink both escape and are rejected; a plain safe path
inside the root is accepted with its real absolute path. -/
theorem c7_path_guard_amended_witness :
    exceptIsErr (ensureInsideRoot fsC7 ⟨false, ["..", "..", "etc", "passwd.json"]⟩) = true ∧
    exceptIsErr (ensureInsideRoot fsL ⟨false, ["link.json"]⟩) = true ∧
    ensureInsideRoot fsC7 ⟨false, ["sub", "ok.json"]⟩ = .ok ["proj", "sub", "ok.json"] :=
  ⟨c7_path_guard_amended.1 fsC7 ⟨false, ["..", "..", "etc", "passwd.json"]⟩ rfl,
   c7_path_guard_amended.1 fsL ⟨false, ["link.json"]⟩ rfl,
   c7_path_guard_amended.2 fsC7 ⟨false, ["sub", "ok.json"]⟩ ["sub", "ok.json"] rfl rfl rfl⟩

/-- C8: when zero inputs remain after resolution the result is `no_inputs` and
nothing else happens — the filesystem is untouched and the output path is
never resolved or validated (the conclusion holds for an arbitrary, even
invalid, output option). -/
theorem c8_no_inputs_short_circuit (env : Env) (fs : FS) (opts : MergeOptions)
    (now : Int)
    (hres : resolveInputPaths fs opts.inputs opts.skipMissing = .ok []) :
    mergeJsonc env fs opts now = .ok ({ wrote := false, reason := .no_inputs }, fs) := by
  unfold mergeJsonc
  rw [hres]
  rfl

/-- C8 witness: two missing inputs under skip-missing resolve to nothing and
short-circuit, although the configured output path (`../evil.txt`) would fail
both the extension check and root containment. -/
theorem c8_no_inputs_short_circuit_witness :
    mergeJsonc envNone fsC7 optsW8 5
      = .ok ({ wrote := false, reason := .no_inputs }, fsC7) :=
  c8_no_inputs_short_circuit envNone fsC7 optsW8 5 rfl

/-- C2: whenever the existing output's text equals the newly serialized merge
text character for character, the result is `no_content_change` with no write
and no backup (the filesystem is returned unchanged), for arbitrary dry-run
flag and arbitrary modification times — the content-equality check runs
before and independently of the timestamp check. -/
theorem c2_content_equality_first (env : Env) (fs : FS) (opts : MergeOptions)
    (now : Int) (inputAbs : List AbsPath) (outAbs : AbsPath) (combined : JValue)
    (hres : resolveInputPaths fs opts.inputs opts.skipMissing = .ok inputAbs)
    (hne : inputAbs ≠ [])
    (hout : safeOutputPath fs opts.out = .ok outAbs)
    (hmerge : mergeFiles env fs inputAbs = .ok combined)
    (hex : existsSync fs outAbs = true)
    (hread : readText fs outAbs
      = .ok (stringify combined (calculateIndentation opts.indent opts.pretty))) :
    mergeJsonc env fs opts now
      = .ok ({ wrote := false, reason := .no_content_change }, fs) := by
  have hlen : ¬(inputAbs.length = 0) := fun hz => hne (List.length_eq_zero.mp hz)
  have hcc : checkContentChanged fs outAbs
      (stringify combined (calculateIndentation opts.indent opts.pretty)) = .ok false := by
    unfold checkContentChanged
    rw [hex, hread]
    simp
  unfold mergeJsonc
  rw [hres]
  simp only [if_neg hlen, hout, hmerge, hcc, Bool.not_false, if_true]

/-- C2 witness: the input is newer than the output (mtime 100 against 0), the
invocation is a dry run, yet the identical serialized content yields
`no_content_change` — never `up_to_date`, never a preview — and the
filesystem is unchanged. -/
theorem c2_content_equality_first_witness :
    mergeJsonc envW2 fsW2 optsW2 500
      = .ok ({ wrote := false, reason := .no_content_change }, fsW2) :=
  c2_content_equality_first envW2 fsW2 optsW2 500 [["r", "a.jsonc"]]
    ["r", "out.json"] (.obj [("a", .num 1)]) rfl (by decide) rfl
    (by
      have e1 : deepmergeVal (.obj []) (.obj [("a", JValue.num 1)])
          = .obj [("a", JValue.num 1)] := by
        simp [deepmergeVal, mergeT, hasKey]
      calc mergeFiles envW2 fsW2 [["r", "a.jsonc"]]
          = .ok (deepmergeVal (.obj []) (.obj [("a", JValue.num 1)])) := rfl
        _ = .ok (.obj [("a", JValue.num 1)]) := by rw [e1])
    rfl
    (by
      have hs : stringify (.obj [("a", JValue.num 1)])
          (calculateIndentation optsW2.indent optsW2.pretty)
          = "\x7b\n  \"a\": 1\n\x7d" := by
        simp only [stringify, jVal, jFields, jList]
        rfl
      rw [hs]
      rfl)

/-- C3: in a non-dry-run invocation with an existing output whose content
differs from the new text, if the output mtime is at least the maximum input
mtime (equality counts), the result is `up_to_date` and no write occurs. -/
theorem c3_up_to_date_on_newer_or_equal_output (env : Env) (fs : FS)
    (opts : MergeOptions) (now : Int) (inputAbs : List AbsPath)
    (outAbs : AbsPath) (combined : JValue) (cur : String)
    (hres : resolveInputPaths fs opts.inputs opts.skipMissing = .ok inputAbs)
    (hne : inputAbs ≠ [])
    (hout : safeOutputPath fs opts.out = .ok outAbs)
    (hmerge : mergeFiles env fs inputAbs = .ok combined)
    (hex : existsSync fs outAbs = true)
    (hread : readText fs outAbs = .ok cur)
    (hneq : cur ≠ stringify combined (calculateIndentation opts.indent opts.pretty))
    (hdry : opts.dryRun = false)
    (hle : leE (maxE (inputAbs.map (fun p => getMtimeMs fs (some p))))
        (getMtimeMs fs (some outAbs)) = true) :
    mergeJsonc env fs opts now = .ok ({ wrote := false, reason := .up_to_date }, fs) := by
  have hlen : ¬(inputAbs.length = 0) := fun hz => hne (List.length_eq_zero.mp hz)
  have hcc : checkContentChanged fs outAbs
      (stringify combined (calculateIndentation opts.indent opts.pretty)) = .ok true := by
    unfold checkContentChanged
    rw [hex, hread]
    simp [hneq]
  have hup : checkIfUpToDate fs outAbs inputAbs opts.dryRun = true := by
    unfold checkIfUpToDate
    rw [hex, hdry, hle]
    simp
  unfold mergeJsonc
  rw [hres]
  simp only [if_neg hlen, hout, hmerge, hcc, hup, Bool.not_true,
    Bool.false_eq_true, if_false, if_true]

/-- C3 witness: input mtime and output mtime are both 100 — exact equality —
content differs, dry-run is off, and the engine reports `up_to_date` with the
filesystem unchanged. -/
theorem c3_up_to_date_on_newer_or_equal_output_witness :
    mergeJsonc envW2 fsW3 optsW3 500
      = .ok ({ wrote := false, reason := .up_to_date }, fsW3) :=
  c3_up_to_date_on_newer_or_equal_output envW2 fsW3 optsW3 500
    [["r", "a.jsonc"]] ["r", "out.json"] (.obj [("a", .num 1)]) "old"
    rfl (by decide) rfl
    (by
      have e1 : deepmergeVal (.obj []) (.obj [("a", JValue.num 1)])
          = .obj [("a", JValue.num 1)] := by
        simp [deepmergeVal, mergeT, hasKey]
      calc mergeFiles envW2 fsW3 [["r", "a.jsonc"]]
          = .ok (deepmergeVal (.obj []) (.obj [("a", JValue.num 1)])) := rfl
        _ = .ok (.obj [("a", JValue.num 1)]) := by rw [e1])
    rfl rfl
    (by
      have hs : stringify (.obj [("a", JValue.num 1)])
          (calculateIndentation optsW3.indent optsW3.pretty)
          = "\x7b\n  \"a\": 1\n\x7d" := by
        simp only [stringify, jVal, jFields, jList]
        rfl
      rw [hs]
      decide)
    rfl rfl

/-- C5: a dry-run invocation that gets past the content-equality check (the
content differs) bypasses the timestamp check entirely — no mtime hypothesis
appears below — and returns `dry_run` carrying the serialized text as a
preview, with the filesystem returned unchanged: no output write, no backup,
no write of any kind. -/
theorem c5_dry_run_never_writes (env : Env) (fs : FS) (opts : MergeOptions)
    (now : Int) (inputAbs : List AbsPath) (outAbs : AbsPath) (combined : JValue)
    (hres : resolveInputPaths fs opts.inputs opts.skipMissing = .ok inputAbs)
    (hne : inputAbs ≠ [])
    (hout : safeOutputPath fs opts.out = .ok outAbs)
    (hmerge : mergeFiles env fs inputAbs = .ok combined)
    (hcc : checkContentChanged fs outAbs
      (stringify combined (calculateIndentation opts.indent opts.pretty)) = .ok true)
    (hdry : opts.dryRun = true) :
    mergeJsonc env fs opts now
      = .ok ({ wrote := false, reason := .dry_run,
               preview := some (stringify combined
                 (calculateIndentation opts.indent opts.pretty)) }, fs) := by
  have hlen : ¬(inputAbs.length = 0) := fun hz => hne (List.length_eq_zero.mp hz)
  have hup : checkIfUpToDate fs outAbs inputAbs true = false := by
    unfold checkIfUpToDate
    simp
  unfold mergeJsonc
  rw [hres]
  simp only [if_neg hlen, hout, hmerge, hcc, hup, hdry, Bool.not_true,
    Bool.false_eq_true, if_false, if_true]

/-- C5 witness: same stale-content scenario as C3 (equal mtimes would report
`up_to_date`), but with dry-run on the result is a `dry_run` preview and the
filesystem — output and any `.bak` — is exactly the pre-invocation snapshot. -/
theorem c5_dry_run_never_writes_witness :
    mergeJsonc envW2 fsW3 optsW2 500
      = .ok ({ wrote := false, reason := .dry_run,
               preview := some "\x7b\n  \"a\": 1\n\x7d" }, fsW3) := by
  have hs : stringify (.obj [("a", JValue.num 1)])
      (calculateIndentation optsW2.indent optsW2.pretty)
      = "\x7b\n  \"a\": 1\n\x7d" := by
    simp only [stringify, jVal, jFields, jList]
    rfl
  have h := c5_dry_run_never_writes envW2 fsW3 optsW2 500
    [["r", "a.jsonc"]] ["r", "out.json"] (.obj [("a", .num 1)])
    rfl (by decide) rfl
    (by
      have e1 : deepmergeVal (.obj []) (.obj [("a", JValue.num 1)])
          = .obj [("a", JValue.num 1)] := by
        simp [deepmergeVal, mergeT, hasKey]
      calc mergeFiles envW2 fsW3 [["r", "a.jsonc"]]
          = .ok (deepmergeVal (.obj []) (.obj [("a", JValue.num 1)])) := rfl
        _ = .ok (.obj [("a", JValue.num 1)]) := by rw [e1])
    (by rw [hs]; rfl)
    rfl
  rw [hs] at h
  exact h

/-- C10: with at least one resolved input and no existing output file, the
content check and the up-to-date check both fail, so the result is `dry_run`
in dry-run mode and `wrote` otherwise — never `no_content_change`,
`up_to_date` or `wrote_with_backup`; even with the backup flag raised no
backup path is reported and no `.bak` entry is created (its lookup is
unchanged from before the invocation). -/
theorem c10_missing_output_always_writes (env : Env) (fs : FS)
    (opts : MergeOptions) (now : Int) (inputAbs : List AbsPath)
    (outAbs : AbsPath) (combined : JValue)
    (hres : resolveInputPaths fs opts.inputs opts.skipMissing = .ok inputAbs)
    (hne : inputAbs ≠ [])
    (hout : safeOutputPath fs opts.out = .ok outAbs)
    (hmerge : mergeFiles env fs inputAbs = .ok combined)
    (hex : existsSync fs outAbs = false) :
    (opts.dryRun = true →
      mergeJsonc env fs opts now
        = .ok ({ wrote := false, reason := .dry_run,
                 preview := some (stringify combined
                   (calculateIndentation opts.indent opts.pretty)) }, fs)) ∧
    (opts.dryRun = false →
      (mergeJsonc env fs opts now).map
          (fun pr => (pr.1, lookupA (addSuffix outAbs ".bak") pr.2.files))
        = .ok ({ wrote := true, reason := .wrote, out := some outAbs },
               lookupA (addSuffix outAbs ".bak") fs.files)) := by
  have hlen : ¬(inputAbs.length = 0) := fun hz => hne (List.length_eq_zero.mp hz)
  have hcc : checkContentChanged fs outAbs
      (stringify combined (calculateIndentation opts.indent opts.pretty)) = .ok true := by
    unfold checkContentChanged
    rw [hex]
    simp
  constructor
  · intro hdry
    have hup : checkIfUpToDate fs outAbs inputAbs true = false := by
      unfold checkIfUpToDate
      simp
    unfold mergeJsonc
    rw [hres]
    simp only [if_neg hlen, hout, hmerge, hcc, hup, hdry, Bool.not_true,
      Bool.false_eq_true, if_false, if_true]
  · intro hdry
    have hup : checkIfUpToDate fs outAbs inputAbs false = false := by
      unfold checkIfUpToDate
      rw [hex]
      simp
    have haw : atomicWrite fs outAbs
        (stringify combined (calculateIndentation opts.indent opts.pretty))
        opts.backup now
        = .ok (none, FS.mk fs.root
            (setA outAbs
              ⟨stringify combined (calculateIndentation opts.indent opts.pretty), now⟩
              (removeA (addSuffix outAbs ".tmp")
                (setA (addSuffix outAbs ".tmp")
                  ⟨stringify combined (calculateIndentation opts.indent opts.pretty), now⟩
                  fs.files)))
            fs.realp) := by
      unfold atomicWrite
      rw [hex]
      simp only [Bool.and_false, Bool.false_eq_true, if_false, writeFileSync,
        renameSync, lookupA_setA_self]
    have hbo : addSuffix outAbs ".bak" ≠ outAbs :=
      addSuffix_ne_self outAbs (by decide)
    have hbt : addSuffix outAbs ".bak" ≠ addSuffix outAbs ".tmp" :=
      addSuffix_bak_ne_tmp outAbs
    unfold mergeJsonc
    rw [hres]
    simp only [if_neg hlen, hout, hmerge, hcc, hup, hdry, Bool.not_true,
      Bool.false_eq_true, if_false, if_true, haw, Except.map]
    rw [lookupA_setA_ne hbo, lookupA_removeA_ne hbt, lookupA_setA_ne hbt]

/-- C10 witness: one input, no output file, backup flag raised — a dry run
previews and a real run writes plain `wrote` with no backup path; in both
cases the `.bak` lookup is `none`. -/
theorem c10_missing_output_always_writes_witness :
    mergeJsonc envW2 fsW10 optsW10d 500
      = .ok ({ wrote := false, reason := .dry_run,
               preview := some "\x7b\n  \"a\": 1\n\x7d" }, fsW10) ∧
    (mergeJsonc envW2 fsW10 optsW10 500).map
        (fun pr => (pr.1, lookupA (["r", "out.json.bak"] : AbsPath) pr.2.files))
      = .ok ({ wrote := true, reason := .wrote, out := some ["r", "out.json"] },
             none) := by
  have hmg : mergeFiles envW2 fsW10 [["r", "a.jsonc"]]
      = .ok (.obj [("a", JValue.num 1)]) := by
    have e1 : deepmergeVal (.obj []) (.obj [("a", JValue.num 1)])
        = .obj [("a", JValue.num 1)] := by
      simp [deepmergeVal, mergeT, hasKey]
    calc mergeFiles envW2 fsW10 [["r", "a.jsonc"]]
        = .ok (deepmergeVal (.obj []) (.obj [("a", JValue.num 1)])) := rfl
      _ = .ok (.obj [("a", JValue.num 1)]) := by rw [e1]
  constructor
  · have hs : stringify (.obj [("a", JValue.num 1)])
        (calculateIndentation optsW10d.indent optsW10d.pretty)
        = "\x7b\n  \"a\": 1\n\x7d" := by
      simp only [stringify, jVal, jFields, jList]
      rfl
    have h := (c10_missing_output_always_writes envW2 fsW10 optsW10d 500
      [["r", "a.jsonc"]] ["r", "out.json"] (.obj [("a", .num 1)])
      rfl (by decide) rfl hmg rfl).1 rfl
    rw [hs] at h
    exact h
  · have h := (c10_missing_output_always_writes envW2 fsW10 optsW10 500
      [["r", "a.jsonc"]] ["r", "out.json"] (.obj [("a", .num 1)])
      rfl (by decide) rfl hmg rfl).2 rfl
    exact h

/-- C6: a commit with the backup flag raised and an existing output file first
copies the current output content verbatim to `<out>.bak` (overwriting any
prior backup), then writes the new text to a `.tmp` sibling and renames it
over the output.  Afterwards the `.bak` entry holds exactly the pre-invocation
output content, the output holds the newly computed merge text, and the result
is `wrote_with_backup` carrying both paths. -/
theorem c6_backup_commit_contract (env : Env) (fs : FS) (opts : MergeOptions)
    (now : Int) (inputAbs : List AbsPath) (outAbs : AbsPath) (combined : JValue)
    (cur : String)
    (hres : resolveInputPaths fs opts.inputs opts.skipMissing = .ok inputAbs)
    (hne : inputAbs ≠ [])
    (hout : safeOutputPath fs opts.out = .ok outAbs)
    (hmerge : mergeFiles env fs inputAbs = .ok combined)
    (hex : existsSync fs outAbs = true)
    (hread : readText fs outAbs = .ok cur)
    (hneq : cur ≠ stringify combined (calculateIndentation opts.indent opts.pretty))
    (hdry : opts.dryRun = false)
    (hback : opts.backup = true)
    (hle : leE (maxE (inputAbs.map (fun p => getMtimeMs fs (some p))))
        (getMtimeMs fs (some outAbs)) = false) :
    (mergeJsonc env fs opts now).map
        (fun pr => (pr.1, lookupA (addSuffix outAbs ".bak") pr.2.files,
                    lookupA outAbs pr.2.files))
      = .ok ({ wrote := true, reason := .wrote_with_backup, out := some outAbs,
               backup := some (addSuffix outAbs ".bak") },
             some ⟨cur, now⟩,
             some ⟨stringify combined (calculateIndentation opts.indent opts.pretty),
                   now⟩) := by
  have hlen : ¬(inputAbs.length = 0) := fun hz => hne (List.length_eq_zero.mp hz)
  have hcc : checkContentChanged fs outAbs
      (stringify combined (calculateIndentation opts.indent opts.pretty)) = .ok true := by
    unfold checkContentChanged
    rw [hex, hread]
    simp [hneq]
  have hup : checkIfUpToDate fs outAbs inputAbs false = false := by
    unfold checkIfUpToDate
    rw [hex, hle]
    simp
  have haw : atomicWrite fs outAbs
      (stringify combined (calculateIndentation opts.indent opts.pretty))
      opts.backup now
      = .ok (some (addSuffix outAbs ".bak"), FS.mk fs.root
          (setA outAbs
            ⟨stringify combined (calculateIndentation opts.indent opts.pretty), now⟩
            (removeA (addSuffix outAbs ".tmp")
              (setA (addSuffix outAbs ".tmp")
                ⟨stringify combined (calculateIndentation opts.indent opts.pretty), now⟩
                (setA (addSuffix outAbs ".bak") ⟨cur, now⟩ fs.files))))
          fs.realp) := by
    unfold atomicWrite
    rw [hback, hex, hread]
    simp only [Bool.and_self, if_true, writeFileSync, renameSync, lookupA_setA_self]
  have hbo : addSuffix outAbs ".bak" ≠ outAbs :=
    addSuffix_ne_self outAbs (by decide)
  have hbt : addSuffix outAbs ".bak" ≠ addSuffix outAbs ".tmp" :=
    addSuffix_bak_ne_tmp outAbs
  unfold mergeJsonc
  rw [hres]
  simp only [if_neg hlen, hout, hmerge, hcc, hup, hdry, Bool.not_true,
    Bool.false_eq_true, if_false, if_true, haw, Except.map]
  rw [lookupA_setA_ne hbo, lookupA_removeA_ne hbt, lookupA_setA_ne hbt,
    lookupA_setA_self, lookupA_setA_self]

/-- C6 witness: committing over the stale `out.json` (content `old`) with the
backup flag produces `wrote_with_backup` carrying `/r/out.json` and
`/r/out.json.bak`; afterwards the backup holds the pre-invocation content
`old` and the output holds the new merge text. -/
theorem c6_backup_commit_contract_witness :
    (mergeJsonc envW2 fsW6 optsW10 500).map
        (fun pr => (pr.1, lookupA (["r", "out.json.bak"] : AbsPath) pr.2.files,
                    lookupA (["r", "out.json"] : AbsPath) pr.2.files))
      = .ok ({ wrote := true, reason := .wrote_with_backup,
               out := some ["r", "out.json"],
               backup := some ["r", "out.json.bak"] },
             some ⟨"old", 500⟩,
             some ⟨"\x7b\n  \"a\": 1\n\x7d", 500⟩) := by
  have hs : stringify (.obj [("a", JValue.num 1)])
      (calculateIndentation optsW10.indent optsW10.pretty)
      = "\x7b\n  \"a\": 1\n\x7d" := by
    simp only [stringify, jVal, jFields, jList]
    rfl
  have hmg : mergeFiles envW2 fsW6 [["r", "a.jsonc"]]
      = .ok (.obj [("a", JValue.num 1)]) := by
    have e1 : deepmergeVal (.obj []) (.obj [("a", JValue.num 1)])
        = .obj [("a", JValue.num 1)] := by
      simp [deepmergeVal, mergeT, hasKey]
    calc mergeFiles envW2 fsW6 [["r", "a.jsonc"]]
        = .ok (deepmergeVal (.obj []) (.obj [("a", JValue.num 1)])) := rfl
      _ = .ok (.obj [("a", JValue.num 1)]) := by rw [e1]
  have h := c6_backup_commit_contract envW2 fsW6 optsW10 500
    [["r", "a.jsonc"]] ["r", "out.json"] (.obj [("a", .num 1)]) "old"
    rfl (by decide) rfl hmg rfl rfl
    (by rw [hs]; decide) rfl rfl rfl
  rw [hs] at h
  exact h

/-- When `atomicWrite` reports a backup path, the committed filesystem holds a
file at that path. -/
theorem atomicWrite_backup_created (fs : FS) (outAbs : AbsPath) (text : String)
    (cb : Bool) (now : Int) (b : AbsPath) (fs3 : FS)
    (h : atomicWrite fs outAbs text cb now = .ok (some b, fs3)) :
    (lookupA b fs3.files).isSome = true := by
  unfold atomicWrite at h
  split at h
  · exact absurd h (by simp)
  · rename_i bp fs1 heq
    simp only [] at h
    split at h
    · exact absurd h (by simp)
    · rename_i fs3x hren
      injection h with h1
      injection h1 with hbp hfs
      subst hbp
      subst hfs
      split at heq
      · split at heq
        · exact absurd heq (by simp)
        · rename_i content hrd
          injection heq with h2
          injection h2 with hb hfs1
          have hb2 : b = addSuffix outAbs ".bak" := by
            simpa using congrArg (fun o => o.getD []) hb.symm
          subst hb2
          unfold renameSync at hren
          rw [← hfs1] at hren
          simp only [writeFileSync, lookupA_setA_self] at hren
          injection hren with hfs3
          rw [← hfs3]
          have hbo : addSuffix outAbs ".bak" ≠ outAbs :=
            addSuffix_ne_self outAbs (by decide)
          have hbt : addSuffix outAbs ".bak" ≠ addSuffix outAbs ".tmp" :=
            addSuffix_bak_ne_tmp outAbs
          simp only [lookupA_setA_ne hbo, lookupA_removeA_ne hbt,
            lookupA_setA_ne hbt, lookupA_setA_self, Option.isSome_some]
      · injection heq with h2
        injection h2 with hb hfs1
        exact absurd hb (by simp)

/-- C9: every successfully produced `MergeResult` satisfies the tag
invariant — `wrote` is true exactly for the reasons `wrote` and
`wrote_with_backup`; the reason is `wrote_with_backup` exactly when a backup
path is carried, and that backup file exists in the post-invocation
filesystem; a preview is carried only with reason `dry_run`. -/
theorem c9_result_tag_invariant (env : Env) (fs : FS) (opts : MergeOptions)
    (now : Int) (r : MergeResult) (fs2 : FS)
    (h : mergeJsonc env fs opts now = .ok (r, fs2)) :
    (r.wrote = true ↔ (r.reason = .wrote ∨ r.reason = .wrote_with_backup)) ∧
    (r.reason = .wrote_with_backup ↔ r.backup.isSome = true) ∧
    (r.preview.isSome = true → r.reason = .dry_run) ∧
    (∀ b, r.backup = some b → (lookupA b fs2.files).isSome = true) := by
  unfold mergeJsonc at h
  split at h
  · exact absurd h (by simp)
  · split at h
    · injection h with h1
      injection h1 with hr hfs
      subst hr
      simp
    · split at h
      · exact absurd h (by simp)
      · split at h
        · exact absurd h (by simp)
        · simp only [] at h
          split at h
          · exact absurd h (by simp)
          · split at h
            · injection h with h1
              injection h1 with hr hfs
              subst hr
              simp
            · split at h
              · injection h with h1
                injection h1 with hr hfs
                subst hr
                simp
              · split at h
                · injection h with h1
                  injection h1 with hr hfs
                  subst hr
                  simp
                · split at h
                  · exact absurd h (by simp)
                  · rename_i bp fs3 heq
                    injection h with h1
                    injection h1 with hr hfs
                    subst hr
                    subst hfs
                    cases bp with
                    | none => simp
                    | some b =>
                      refine ⟨by simp, by simp, by simp, ?_⟩
                      intro b2 hb2
                      have hb3 : b2 = b := by simpa using hb2.symm
                      subst hb3
                      exact atomicWrite_backup_created fs _ _ opts.backup now b2 _ heq

/-- C9 witness: the invariant instantiated at the result of a concrete
successful invocation (a dry run over one input with no output file). -/
theorem c9_result_tag_invariant_witness :
    (resW9.wrote = true ↔ (resW9.reason = .wrote ∨ resW9.reason = .wrote_with_backup)) ∧
    (resW9.reason = .wrote_with_backup ↔ resW9.backup.isSome = true) ∧
    (resW9.preview.isSome = true → resW9.reason = .dry_run) ∧
    (∀ b, resW9.backup = some b → (lookupA b fsW10.files).isSome = true) :=
  c9_result_tag_invariant envW2 fsW10 optsW10d 500 resW9 fsW10 rfl
